import Mathlib

/-!
Verification development for the `specific_grep` utility
(`src/specific_grep.cpp`): a shallow embedding of the parallel
file-scanning core (line scanner, partitioner, scan coordinator) and of
the CLI driver, with theorems settling the specification's claims.

Modelling conventions:
* A file's readable content is a list of lines (the text each
  `std::getline` yields, i.e. without its terminator); `none` models a
  failed `std::ifstream` open.
* Thread identity (`std::this_thread::get_id()`) is opaque in the
  source; it is modelled as the worker's partition index (0..W-1),
  which is the deterministic abstraction the spec mandates (§9).
* Side effects are made explicit as a trace of `Effect` values:
  opening a file for reading, writing to stderr, writing to stdout and
  writing a disk file.  The C++ source only ever performs the first
  two; the last two are in the vocabulary so that frame claims about
  their absence are meaningful.
* Machine `int` values reaching arithmetic are modelled as `Int`.
  `searchDirectoryForString` is faithful for every `thread_count ≠ 0`;
  `thread_count = 0` makes the C++ divide `size()` by zero (undefined
  behavior), which no total model can reproduce — see the comment on
  the definition.
-/

namespace SpecificGrep

/-- One reported match: the tuple
`(thread_id, file_path, line_number, line)` of the C++ result vector. -/
structure MatchRecord where
  threadId : Nat
  filePath : String
  lineNumber : Nat
  lineText : String
  deriving DecidableEq, Repr

/-- Observable side effects of the program, as an explicit trace. -/
inductive Effect where
  | openRead : String → Effect
  | writeStderr : String → Effect
  | writeStdout : String → Effect
  | writeFile : String → String → Effect
  deriving DecidableEq, Repr

/-- The ambient filesystem, read-only.  `enumerate d` is the flat list
of regular files found by `fs::recursive_directory_iterator(d)` in
traversal order, `none` when the iterator construction throws
(`d` missing or not a directory).  `content p` is the line sequence of
file `p`, `none` when `std::ifstream(p)` fails.  `pathExists` models
`fs::exists`, `currentPath` models `fs::current_path()`. -/
structure Filesystem where
  enumerate : String → Option (List String)
  content : String → Option (List String)
  pathExists : String → Bool
  currentPath : String

/-- `needle` is a prefix of `hay` (character-by-character). -/
def isPrefixL : List Char → List Char → Bool
  | [], _ => true
  | _ :: _, [] => false
  | a :: as, b :: bs => a == b && isPrefixL as bs

/-- `needle` occurs contiguously somewhere in `hay`. -/
def containsSubList (needle : List Char) : List Char → Bool
  | [] => isPrefixL needle []
  | c :: rest => isPrefixL needle (c :: rest) || containsSubList needle rest

/-- Model of `hay.find(needle) != std::string::npos`: case-sensitive
contiguous substring containment, no regex semantics. -/
def strContainsSub (hay needle : String) : Bool :=
  containsSubList needle.toList hay.toList

/-- The `while (std::getline(file, line))` loop of
`searchFilesForString`: `lineNo` is the value of `line_number` before
reading the next line (0 at entry), incremented for every line read;
a record is emitted when the line contains the search string. -/
def scanLines (tid : Nat) (searchString : String) (path : String) :
    List String → Nat → List MatchRecord
  | [], _ => []
  | l :: ls, lineNo =>
    if strContainsSub l searchString then
      ⟨tid, path, lineNo + 1, l⟩ :: scanLines tid searchString path ls (lineNo + 1)
    else
      scanLines tid searchString path ls (lineNo + 1)

/-- The message `searchFilesForString` prints to `std::cerr` when a
file cannot be opened. -/
def openFailMsg (path : String) : String :=
  "Error: could not open file " ++ path ++ " due to permission issues."

/-- The per-file loop of `searchFilesForString`: records produced (in
order) and the effect trace (one open attempt per file; a stderr line
when the open fails, in which case the file is skipped). -/
def scanFiles (tid : Nat) (searchString : String) (fsys : Filesystem) :
    List String → List MatchRecord × List Effect
  | [] => ([], [])
  | p :: rest =>
    let tail := scanFiles tid searchString fsys rest
    match fsys.content p with
    | some lines =>
        (scanLines tid searchString p lines 0 ++ tail.1,
         Effect.openRead p :: tail.2)
    | none =>
        (tail.1,
         Effect.openRead p :: Effect.writeStderr (openFailMsg p) :: tail.2)

/-- `searchFilesForString(search_string, files_to_search)`: scans the
partition and, if no record was produced at all, emits the single
placeholder `(thread_id, "", NULL, "")` (`NULL` is the int 0).  The
first component is the C++ return value, the second the effect
trace. -/
def searchFilesForString (tid : Nat) (searchString : String)
    (filesToSearch : List String) (fsys : Filesystem) :
    List MatchRecord × List Effect :=
  let r := scanFiles tid searchString fsys filesToSearch
  if r.1.isEmpty then ([⟨tid, "", 0, ""⟩], r.2) else r

/-- The slice of the file list handed to worker `i` out of `w`
(from `searchDirectoryForString`): `files_per_thread = L / w`,
`start_index = i * files_per_thread`,
`end_index = (i + 1) == w ? L : (i + 1) * files_per_thread`. -/
def partitionSlice (files : List String) (w : Nat) (i : Nat) : List String :=
  let fpt := files.length / w
  let start := i * fpt
  let stop := if i + 1 = w then files.length else (i + 1) * fpt
  (files.take stop).drop start

/-- All `w` partitions, in worker order. -/
def partitions (files : List String) (w : Nat) : List (List String) :=
  (List.range w).map (partitionSlice files w)

/-- The error a scan can raise: the `std::filesystem::filesystem_error`
thrown by `recursive_directory_iterator` on a missing or non-directory
root, abstracted as the spec's `DirectoryNotFound`.  (No other error is
ever raised by the source: in particular no `InvalidWorkerCount`
exists in the code.) -/
inductive ScanError where
  | directoryNotFound
  deriving DecidableEq, Repr

/-- The pair `(results, files_to_search.size())` returned by
`searchDirectoryForString`. -/
structure ScanResult where
  records : List MatchRecord
  totalFiles : Nat
  deriving DecidableEq, Repr

/-- `searchDirectoryForString(search_string, directory_path,
thread_count)`: enumerate, partition, run one scanner per partition,
then concatenate the per-worker record vectors in worker-index order
(`future.get()` in launch order).  `threadCount` is the C++ `int`; the
loop `for (int i = 0; i < thread_count; ++i)` runs `threadCount.toNat`
times, so a negative count runs no worker and yields an empty record
list with no error raised.  For `thread_count = 0` the C++ divides
`size()` by zero — undefined behavior — while this model (Nat division
by zero being 0) returns an empty result; the model is faithful for
every `threadCount ≠ 0`. -/
def searchDirectoryForString (searchString : String)
    (directoryPath : String) (threadCount : Int) (fsys : Filesystem) :
    Except ScanError (ScanResult × List Effect) :=
  match fsys.enumerate directoryPath with
  | none => .error .directoryNotFound
  | some files =>
    let w := threadCount.toNat
    let perWorker := (List.range w).map
      (fun i => searchFilesForString i searchString (partitionSlice files w i) fsys)
    .ok (⟨(perWorker.map Prod.fst).flatten, files.length⟩,
         (perWorker.map Prod.snd).flatten)

/-- `\w` of `std::regex` on narrow characters: ASCII alphanumerics and
underscore. -/
def isWordChar (c : Char) : Bool :=
  c.isAlpha || c.isDigit || c == '_'

/-- `isValidFilename`: true iff no character of the name falls outside
`[\w\-. ]` (the C++ negated-class regex search finds nothing). -/
def isValidFilename (filename : String) : Bool :=
  filename.toList.all (fun c => isWordChar c || c == '-' || c == '.' || c == ' ')

/-- Characters accumulated since the last separator seen (`acc` is
reversed); a fresh accumulator starts after each `/`. -/
def afterLastSlashAux (acc : List Char) : List Char → List Char
  | [] => acc.reverse
  | c :: rest =>
    if c = '/' then afterLastSlashAux [] rest
    else afterLastSlashAux (c :: acc) rest

/-- Model of `fs::path(argv[0]).filename().string()` on a POSIX path:
the component after the last slash. -/
def afterLastSlash (s : String) : String :=
  String.mk (afterLastSlashAux [] s.toList)

/-- `filename.substr(0, filename.find_last_of("."))`: everything
before the last dot; the whole string when there is no dot
(`find_last_of` returns `npos` and `substr` takes everything). -/
def dropAfterLastDot (s : String) : String :=
  match s.toList.reverse.dropWhile (fun c => !(c = '.')) with
  | [] => s
  | _ :: rest => String.mk rest.reverse

/-- Numeric value of a digit run. -/
def digitsToNat (ds : List Char) : Nat :=
  ds.foldl (fun a c => a * 10 + (c.toNat - 48)) 0

/-- The digit run at the front of `cs`, `none` when there is none. -/
def stoiDigits (cs : List Char) : Option Nat :=
  let ds := cs.takeWhile Char.isDigit
  if ds.isEmpty then none else some (digitsToNat ds)

/-- Model of `std::stoi`: skip leading whitespace, accept an optional
sign, require at least one digit (otherwise `std::invalid_argument`,
modelled as `none`), take the value of the digit run and ignore any
trailing text.  `std::out_of_range` overflow is not modelled. -/
def stoiModel (s : String) : Option Int :=
  let cs := s.toList.dropWhile (fun c => c == ' ' || c == '\t' || c == '\n' || c == '\r')
  match cs with
  | '-' :: rest => (stoiDigits rest).map (fun n => -(n : Int))
  | '+' :: rest => (stoiDigits rest).map (fun n => (n : Int))
  | _ => (stoiDigits cs).map (fun n => (n : Int))

/-- The mutable locals of `main`'s option loop: directory path, log
filename, result filename, thread count, and the four
already-seen flags. -/
structure CliState where
  directoryPath : String
  logFilename : String
  resultFilename : String
  threadCnt : Int
  dirOpt : Bool
  logOpt : Bool
  resOpt : Bool
  thrOpt : Bool
  deriving Repr

/-- One iteration of `main`'s option loop on option `opt` with value
`val`: either an updated state or the exit code 1 together with the
stderr line printed. -/
def processOption (fsys : Filesystem) (st : CliState) (opt val : String) :
    Except (Int × List Effect) CliState :=
  if opt = "-d" ∨ opt = "--dir" then
    if st.dirOpt then
      .error (1, [Effect.writeStderr "Error: multiple usage of the starting directory option"])
    else
      let dp := st.directoryPath ++ "\\" ++ val
      if fsys.pathExists dp then
        .ok ⟨dp, st.logFilename, st.resultFilename, st.threadCnt,
             true, st.logOpt, st.resOpt, st.thrOpt⟩
      else
        .error (1, [Effect.writeStderr "Error: directory does not exist"])
  else if opt = "-l" ∨ opt = "--log_file" then
    if st.logOpt then
      .error (1, [Effect.writeStderr "Error: multiple usage of the log filename option"])
    else if isValidFilename val then
      .ok ⟨st.directoryPath, val, st.resultFilename, st.threadCnt,
           st.dirOpt, true, st.resOpt, st.thrOpt⟩
    else
      .error (1, [Effect.writeStderr "Error: invalid log filename"])
  else if opt = "-r" ∨ opt = "--result_file" then
    if st.resOpt then
      .error (1, [Effect.writeStderr "Error: multiple usage of the result filename option"])
    else if isValidFilename val then
      .ok ⟨st.directoryPath, st.logFilename, val, st.threadCnt,
           st.dirOpt, st.logOpt, true, st.thrOpt⟩
    else
      .error (1, [Effect.writeStderr "Error: invalid result filename"])
  else if opt = "-t" ∨ opt = "--threads" then
    if st.thrOpt then
      .error (1, [Effect.writeStderr "Error: multiple usage of the thread count option"])
    else
      match stoiModel val with
      | none => .error (1, [Effect.writeStderr "Error: invalid thread count"])
      | some n =>
        .ok ⟨st.directoryPath, st.logFilename, st.resultFilename, n,
             st.dirOpt, st.logOpt, st.resOpt, true⟩
  else
    .error (1, [Effect.writeStderr "Wrong usage of the additional parameters."])

/-- `main`'s loop `for (int i = 1; i <= additional_options_cnt; i++)`,
reading `argv[2 i]` / `argv[2 i + 1]`; the second argument counts the
iterations still to run. -/
def processOptions (fsys : Filesystem) (args : List String) :
    Nat → Nat → CliState → Except (Int × List Effect) CliState
  | _, 0, st => .ok st
  | i, k + 1, st =>
    match processOption fsys st (args.getD (2 * i) "") (args.getD (2 * i + 1) "") with
    | .error e => .error e
    | .ok st2 => processOptions fsys args (i + 1) k st2

/-- The usage text `main` prints to stderr when called with no
arguments. -/
def usageMsg (filename : String) : String :=
  "Error: wrong usage of the program\n" ++
  "Usage: " ++ filename ++ " <search string> [options]\n" ++
  "Options:\n" ++
  "  -d <directory> - directory to search in (default: current directory)\n" ++
  "  -l <log filename> - log filename (default: <program name>.log)\n" ++
  "  -r <result filename> - result filename (default: <program name>.txt)\n" ++
  "  -t <thread count> - number of threads to use (default: 4)\n"

/-- The argument-handling phase of `main` (everything before the call
to `searchDirectoryForString`): argument-count checks, defaults, and
the option loop.  On failure: the exit code and the stderr output.
`args` is the whole `argv`, program name included. -/
def mainParse (args : List String) (fsys : Filesystem) :
    Except (Int × List Effect) (String × CliState) :=
  let argc := args.length
  let filename := afterLastSlash (args.getD 0 "")
  if argc = 1 then
    .error (1, [Effect.writeStderr (usageMsg filename)])
  else if argc % 2 ≠ 0 ∨ 10 < argc then
    .error (1, [Effect.writeStderr "Error: wrong number of arguments"])
  else
    let programName := dropAfterLastDot filename
    let st0 : CliState :=
      ⟨fsys.currentPath, programName, programName, 4, false, false, false, false⟩
    match processOptions fsys args 1 ((argc - 2) / 2) st0 with
    | .error e => .error e
    | .ok st => .ok (args.getD 1 "", st)

/-- `main`: parse the arguments, run the scan, discard the returned
`ScanResult` and exit with status 0.  The scan's structural error (the
filesystem exception) is not caught anywhere in `main`, so it
terminates the process abnormally (`std::terminate`), modelled as
`none`. -/
def mainRun (args : List String) (fsys : Filesystem) : Option (Int × List Effect) :=
  match mainParse args fsys with
  | .error e => some e
  | .ok (searchString, st) =>
    match searchDirectoryForString searchString st.directoryPath st.threadCnt fsys with
    | .error _ => none
    | .ok (_, effs) => some (0, effs)

/-! ## Lemmas about the line scanner -/

theorem containsSubList_nil_needle : ∀ hay : List Char, containsSubList [] hay = true
  | [] => rfl
  | _ :: rest => by simp [containsSubList, isPrefixL, containsSubList_nil_needle rest]

theorem strContainsSub_empty_needle (hay : String) : strContainsSub hay "" = true := by
  simp [strContainsSub, containsSubList_nil_needle]

/-- The scanner loop, characterized declaratively: starting with
counter value `n`, it emits exactly the lines containing the search
string, numbered by their 1-based position offset by `n`, with the
line text untouched. -/
theorem scanLines_eq_enumFrom (tid : Nat) (s p : String) :
    ∀ (ls : List String) (n : Nat),
      scanLines tid s p ls n =
        ((List.enumFrom (n + 1) ls).filter (fun il => strContainsSub il.2 s)).map
          (fun il => MatchRecord.mk tid p il.1 il.2) := by
  intro ls
  induction ls with
  | nil => intro n; rfl
  | cons l ls ih =>
    intro n
    by_cases hc : strContainsSub l s = true
    · simp [scanLines, hc, List.enumFrom, List.filter, ih (n + 1)]
    · simp [scanLines, hc, List.enumFrom, List.filter, Bool.eq_false_iff.mpr hc, ih (n + 1)]

theorem scanLines_mem (tid : Nat) (s p : String) :
    ∀ (ls : List String) (n : Nat) (r : MatchRecord), r ∈ scanLines tid s p ls n →
      r.threadId = tid ∧ r.filePath = p ∧ n + 1 ≤ r.lineNumber := by
  intro ls
  induction ls with
  | nil => intro n r h; simp [scanLines] at h
  | cons l ls ih =>
    intro n r h
    by_cases hc : strContainsSub l s = true
    · rw [scanLines, if_pos hc] at h
      rcases List.mem_cons.mp h with rfl | h2
      · exact ⟨rfl, rfl, Nat.le_refl _⟩
      · obtain ⟨h1, h2, h3⟩ := ih (n + 1) r h2
        exact ⟨h1, h2, by omega⟩
    · rw [scanLines, if_neg hc] at h
      obtain ⟨h1, h2, h3⟩ := ih (n + 1) r h
      exact ⟨h1, h2, by omega⟩

/-- Within one file the emitted records carry strictly increasing line
numbers (the counter increments at every line read). -/
theorem scanLines_pairwise (tid : Nat) (s p : String) :
    ∀ (ls : List String) (n : Nat),
      (scanLines tid s p ls n).Pairwise (fun a b => a.lineNumber < b.lineNumber) := by
  intro ls
  induction ls with
  | nil => intro n; simp [scanLines]
  | cons l ls ih =>
    intro n
    by_cases hc : strContainsSub l s = true
    · rw [scanLines, if_pos hc]
      refine List.Pairwise.cons ?_ (ih (n + 1))
      intro b hb
      have := (scanLines_mem tid s p ls (n + 1) b hb).2.2
      simp only []
      omega
    · rw [scanLines, if_neg hc]
      exact ih (n + 1)

/-- With the empty search string, every line is emitted. -/
theorem scanLines_empty_needle_mem (tid : Nat) (p : String) :
    ∀ (ls : List String) (n i : Nat), i < ls.length →
      MatchRecord.mk tid p (n + 1 + i) (ls.getD i "") ∈ scanLines tid "" p ls n := by
  intro ls
  induction ls with
  | nil => intro n i h; simp at h
  | cons l ls ih =>
    intro n i h
    rw [scanLines, if_pos (strContainsSub_empty_needle l)]
    cases i with
    | zero => simp
    | succ j =>
      have hj : j < ls.length := by simpa using h
      have := ih (n + 1) j hj
      refine List.mem_cons.mpr (Or.inr ?_)
      have harith : n + 1 + (j + 1) = n + 1 + 1 + j := by omega
      rw [harith]
      simpa using this

/-! ## Lemmas about the per-file loop -/

theorem scanFiles_fst (tid : Nat) (s : String) (fsys : Filesystem) :
    ∀ files : List String,
      (scanFiles tid s fsys files).1 =
        (files.map (fun p => scanLines tid s p ((fsys.content p).getD []) 0)).flatten := by
  intro files
  induction files with
  | nil => rfl
  | cons p rest ih =>
    cases h : fsys.content p with
    | none => simp [scanFiles, h, ih, scanLines]
    | some lines => simp [scanFiles, h, ih]

theorem scanFiles_snd (tid : Nat) (s : String) (fsys : Filesystem) :
    ∀ files : List String,
      (scanFiles tid s fsys files).2 =
        (files.map (fun p =>
          match fsys.content p with
          | some _ => [Effect.openRead p]
          | none => [Effect.openRead p, Effect.writeStderr (openFailMsg p)])).flatten := by
  intro files
  induction files with
  | nil => rfl
  | cons p rest ih =>
    cases h : fsys.content p with
    | none => simp [scanFiles, h, ih]
    | some lines => simp [scanFiles, h, ih]

theorem searchFiles_snd (tid : Nat) (s : String) (files : List String) (fsys : Filesystem) :
    (searchFilesForString tid s files fsys).2 = (scanFiles tid s fsys files).2 := by
  unfold searchFilesForString
  by_cases h : (scanFiles tid s fsys files).1.isEmpty = true
  · simp [h]
  · simp [h]

/-! ## Lemmas about the partitioner -/

theorem drop_take_append {α : Type} (l : List α) (a b c : Nat)
    (h1 : a ≤ b) (h2 : b ≤ c) :
    (l.take b).drop a ++ (l.take c).drop b = (l.take c).drop a := by
  by_cases hl : a ≤ l.length
  · have hbc : l.take b = (l.take c).take b := by
      rw [List.take_take, Nat.min_eq_left h2]
    rw [hbc]
    conv_rhs => rw [← List.take_append_drop b (l.take c)]
    rw [List.drop_append_of_le_length]
    rw [List.length_take, List.length_take]
    exact le_min h1 (le_min (le_trans h1 h2) hl)
  · push_neg at hl
    have e1 : (l.take b).drop a = [] := by
      apply List.drop_eq_nil_of_le
      rw [List.length_take]
      omega
    have e2 : (l.take c).drop b = [] := by
      apply List.drop_eq_nil_of_le
      rw [List.length_take]
      omega
    have e3 : (l.take c).drop a = [] := by
      apply List.drop_eq_nil_of_le
      rw [List.length_take]
      omega
    rw [e1, e2, e3, List.append_nil]

theorem flatten_range_slices {α : Type} (l : List α) (f : Nat) :
    ∀ k : Nat,
      ((List.range k).map (fun i => (l.take ((i + 1) * f)).drop (i * f))).flatten
        = l.take (k * f) := by
  intro k
  induction k with
  | zero => simp
  | succ k ih =>
    rw [List.range_succ, List.map_append, List.flatten_append, ih]
    simp only [List.map_cons, List.map_nil, List.flatten_cons, List.flatten_nil,
      List.append_nil]
    have := drop_take_append l 0 (k * f) ((k + 1) * f) (Nat.zero_le _)
      (Nat.mul_le_mul_right f (Nat.le_succ k))
    simpa using this

/-- For every worker count `w ≥ 1` the `w` slices built by the
partition loop concatenate, in worker order, back to the file list:
no file is duplicated or dropped. -/
theorem partitions_flatten (files : List String) (w : Nat) (hw : 1 ≤ w) :
    (partitions files w).flatten = files := by
  obtain ⟨k, rfl⟩ : ∃ k, w = k + 1 := ⟨w - 1, by omega⟩
  unfold partitions
  rw [List.range_succ, List.map_append, List.flatten_append]
  simp only [List.map_cons, List.map_nil, List.flatten_cons, List.flatten_nil,
    List.append_nil]
  have hmap : (List.range k).map (partitionSlice files (k + 1)) =
      (List.range k).map (fun i =>
        (files.take ((i + 1) * (files.length / (k + 1)))).drop
          (i * (files.length / (k + 1)))) := by
    apply List.map_congr_left
    intro i hi
    have hi' : i < k := List.mem_range.mp hi
    simp only [partitionSlice]
    rw [if_neg (by omega : ¬ i + 1 = k + 1)]
  rw [hmap, flatten_range_slices]
  simp only [partitionSlice]
  rw [if_pos trivial, List.take_length]
  exact List.take_append_drop _ files

/-- Every partition among the first `w - 1` has exactly
`⌊L / w⌋` elements. -/
theorem partitionSlice_length_mid (files : List String) (w i : Nat)
    (hi : i < w - 1) :
    (partitionSlice files w i).length = files.length / w := by
  simp only [partitionSlice]
  rw [if_neg (by omega : ¬ i + 1 = w)]
  rw [List.length_drop, List.length_take]
  have h1 : (i + 1) * (files.length / w) ≤ files.length := by
    calc (i + 1) * (files.length / w)
        ≤ w * (files.length / w) := Nat.mul_le_mul_right _ (by omega)
      _ ≤ files.length := by
          rw [Nat.mul_comm]
          exact Nat.div_mul_le_self _ _
  rw [Nat.min_eq_left h1, Nat.add_mul, Nat.one_mul, Nat.add_sub_cancel_left]

/-- The last partition has the `L - (w-1)·⌊L / w⌋` remaining
elements. -/
theorem partitionSlice_length_last (files : List String) (w : Nat) (hw : 1 ≤ w) :
    (partitionSlice files w (w - 1)).length =
      files.length - (w - 1) * (files.length / w) := by
  simp only [partitionSlice]
  rw [if_pos (by omega : w - 1 + 1 = w)]
  rw [List.length_drop, List.length_take, Nat.min_self]

/-! ## Lemmas about the coordinator -/

/-- When enumeration succeeds, the coordinator returns the per-worker
record vectors and effect traces concatenated in worker-index order
(`future.get()` is called in launch order). -/
theorem searchDirectory_ok (s d : String) (tc : Int) (fsys : Filesystem)
    (files : List String) (henum : fsys.enumerate d = some files) :
    searchDirectoryForString s d tc fsys =
      .ok (⟨((List.range tc.toNat).map
              (fun i => (searchFilesForString i s (partitionSlice files tc.toNat i) fsys).1)).flatten,
            files.length⟩,
           ((List.range tc.toNat).map
              (fun i => (searchFilesForString i s (partitionSlice files tc.toNat i) fsys).2)).flatten) := by
  unfold searchDirectoryForString
  rw [henum]
  simp [List.map_map, Function.comp_def]

/-- Every effect a worker emits is either an open-for-reading attempt
or the stderr line for a file whose open failed. -/
theorem scanFiles_effect_shape (tid : Nat) (s : String) (fsys : Filesystem)
    (files : List String) :
    ∀ e ∈ (scanFiles tid s fsys files).2,
      (∃ p, e = Effect.openRead p) ∨
      (∃ p, fsys.content p = none ∧ e = Effect.writeStderr (openFailMsg p)) := by
  intro e he
  rw [scanFiles_snd] at he
  rcases List.mem_flatten.mp he with ⟨blk, hblk, heblk⟩
  rcases List.mem_map.mp hblk with ⟨p, hp, rfl⟩
  cases hc : fsys.content p with
  | some ls =>
    rw [hc] at heblk
    simp only [List.mem_singleton] at heblk
    exact Or.inl ⟨p, heblk⟩
  | none =>
    rw [hc] at heblk
    rcases List.mem_cons.mp heblk with h1 | h2
    · exact Or.inl ⟨p, h1⟩
    · simp only [List.mem_singleton] at h2
      exact Or.inr ⟨p, hc, h2⟩

/-- Effect shape at the coordinator level: a successful scan's whole
trace consists of open attempts and stderr open-failure lines only;
in particular there is no disk write and no stdout write. -/
theorem searchDirectory_effect_shape (s d : String) (tc : Int) (fsys : Filesystem)
    (res : ScanResult) (effs : List Effect)
    (h : searchDirectoryForString s d tc fsys = .ok (res, effs)) :
    ∀ e ∈ effs,
      (∃ p, e = Effect.openRead p) ∨
      (∃ p, fsys.content p = none ∧ e = Effect.writeStderr (openFailMsg p)) := by
  intro e he
  cases henum : fsys.enumerate d with
  | none =>
    rw [searchDirectoryForString, henum] at h
    exact absurd h (by simp)
  | some files =>
    rw [searchDirectory_ok s d tc fsys files henum] at h
    have heffs : effs = ((List.range tc.toNat).map
        (fun i => (searchFilesForString i s (partitionSlice files tc.toNat i) fsys).2)).flatten := by
      cases h
      rfl
    rw [heffs] at he
    rcases List.mem_flatten.mp he with ⟨tr, htr, hetr⟩
    rcases List.mem_map.mp htr with ⟨i, hi, rfl⟩
    rw [searchFiles_snd] at hetr
    exact scanFiles_effect_shape i s fsys _ e hetr

/-- Per-worker characterization of `searchFilesForString`: the
concatenation, in partition order, of the per-file scans (an
unreadable file contributing nothing), with the placeholder record
when that concatenation is empty. -/
theorem searchFiles_fst_scanLines (tid : Nat) (s : String)
    (files : List String) (fsys : Filesystem) :
    (searchFilesForString tid s files fsys).1 =
      if ((files.map (fun p =>
            scanLines tid s p ((fsys.content p).getD []) 0)).flatten).isEmpty
      then [MatchRecord.mk tid "" 0 ""]
      else (files.map (fun p =>
            scanLines tid s p ((fsys.content p).getD []) 0)).flatten := by
  simp only [searchFilesForString]
  rw [← scanFiles_fst]
  by_cases h : (scanFiles tid s fsys files).1.isEmpty = true
  · rw [if_pos h, if_pos h]
  · rw [if_neg h, if_neg h]

/-! ## Sample filesystems used to instantiate hypotheses -/

/-- The spec's end-to-end example (§8.7): root with `a.txt`
(lines `foo`, `bar baz`) and `b.txt` (lines `nothing`, `foo again`). -/
def sampleFs : Filesystem :=
  ⟨fun d => if d = "root" then some ["a.txt", "b.txt"] else none,
   fun p =>
     if p = "a.txt" then some ["foo", "bar baz"]
     else if p = "b.txt" then some ["nothing", "foo again"] else none,
   fun _ => true, "root"⟩

/-- A root holding one unreadable file and one readable file with a
known match (the spec's fault-isolation scenario, §8.6). -/
def faultFs : Filesystem :=
  ⟨fun d => if d = "root" then some ["bad.txt", "good.txt"] else none,
   fun p => if p = "good.txt" then some ["x marks"] else none,
   fun _ => true, "root"⟩

/-! ## The claims -/

/-- C1: `searchFilesForString` emits, for each readable file of the
partition in order, a `MatchRecord` exactly for the lines containing
the search string as a contiguous case-sensitive substring; the record
carries the 1-based line number (counted over every line read,
matching or not, via `enumFrom 1`) and the full terminator-free line
text.  Unreadable files (`content = none`) contribute nothing, and
when no record at all was produced the single placeholder
`(tid, "", 0, "")` is returned instead. -/
theorem spec_C1 (tid : Nat) (s : String) (fsys : Filesystem) (files : List String) :
    (searchFilesForString tid s files fsys).1 =
      (let real := (files.map (fun p =>
          ((List.enumFrom 1 ((fsys.content p).getD [])).filter
              (fun il => strContainsSub il.2 s)).map
            (fun il => MatchRecord.mk tid p il.1 il.2))).flatten
       if real.isEmpty then [MatchRecord.mk tid "" 0 ""] else real) := by
  have hfst : (scanFiles tid s fsys files).1 =
      (files.map (fun p =>
        ((List.enumFrom 1 ((fsys.content p).getD [])).filter
            (fun il => strContainsSub il.2 s)).map
          (fun il => MatchRecord.mk tid p il.1 il.2))).flatten := by
    rw [scanFiles_fst]
    apply congrArg List.flatten
    apply List.map_congr_left
    intro p _
    exact scanLines_eq_enumFrom tid s p ((fsys.content p).getD []) 0
  simp only [searchFilesForString]
  rw [← hfst]
  by_cases h : (scanFiles tid s fsys files).1.isEmpty = true
  · rw [if_pos h, if_pos h]
  · rw [if_neg h, if_neg h]

/-- C2: for `L ≥ 0` files and `W ≥ 1` workers the partitioning used by
`searchDirectoryForString` yields exactly `W` contiguous slices whose
in-order concatenation is the file sequence itself (no file duplicated
or dropped); each of the first `W - 1` partitions has `⌊L/W⌋` elements
and the last has `L - (W-1)·⌊L/W⌋`. -/
theorem spec_C2 (files : List String) (w : Nat) (hw : 1 ≤ w) :
    (partitions files w).length = w ∧
    (partitions files w).flatten = files ∧
    (∀ i, i < w - 1 → (partitionSlice files w i).length = files.length / w) ∧
    (partitionSlice files w (w - 1)).length =
      files.length - (w - 1) * (files.length / w) := by
  refine ⟨?_, partitions_flatten files w hw,
    fun i hi => partitionSlice_length_mid files w i hi,
    partitionSlice_length_last files w hw⟩
  simp [partitions]

theorem spec_C2_witness :
    1 ≤ 3 ∧ (partitions ["f1", "f2", "f3", "f4", "f5"] 3).flatten
      = ["f1", "f2", "f3", "f4", "f5"] :=
  ⟨by decide, (spec_C2 ["f1", "f2", "f3", "f4", "f5"] 3 (by decide)).2.1⟩

/-- C3 (refuting evaluation): the source never validates the worker
count.  With `thread_count = -1` on a directory holding one file whose
single line contains the search string, `searchDirectoryForString`
raises no error at all: the partition loop runs zero times and the
call returns an `ok` result with zero records (the matching file is
silently never scanned).  No `InvalidWorkerCount` failure exists
anywhere in the code; `thread_count = 0` even divides
`files_to_search.size()` by zero (undefined behavior), and both cases
occur only after the enumeration has already run. -/
theorem spec_C3 :
    searchDirectoryForString "foo" "root" (-1) sampleFs =
      .ok (⟨[], 2⟩, []) := by
  rfl

/-- C4: the records of a successful scan are the per-worker record
lists concatenated in ascending worker-index order; each worker's list
is its partition's per-file scans concatenated in partition
(file) order, and within one file the records carry that file's path
with strictly increasing line numbers. -/
theorem spec_C4 (s d : String) (fsys : Filesystem) (w : Nat) (files : List String)
    (henum : fsys.enumerate d = some files) :
    searchDirectoryForString s d (w : Int) fsys =
      .ok (⟨((List.range w).map
              (fun i => (searchFilesForString i s (partitionSlice files w i) fsys).1)).flatten,
            files.length⟩,
           ((List.range w).map
              (fun i => (searchFilesForString i s (partitionSlice files w i) fsys).2)).flatten) ∧
    (∀ i : Nat,
      (searchFilesForString i s (partitionSlice files w i) fsys).1 =
        if (((partitionSlice files w i).map (fun p =>
              scanLines i s p ((fsys.content p).getD []) 0)).flatten).isEmpty
        then [MatchRecord.mk i "" 0 ""]
        else ((partitionSlice files w i).map (fun p =>
              scanLines i s p ((fsys.content p).getD []) 0)).flatten) ∧
    (∀ (i : Nat) (p : String) (ls : List String) (n : Nat),
      (scanLines i s p ls n).Pairwise (fun a b => a.lineNumber < b.lineNumber) ∧
      ∀ r ∈ scanLines i s p ls n, r.filePath = p ∧ r.threadId = i) := by
  refine ⟨?_, ?_, ?_⟩
  · have h := searchDirectory_ok s d (w : Int) fsys files henum
    simpa using h
  · intro i
    exact searchFiles_fst_scanLines i s (partitionSlice files w i) fsys
  · intro i p ls n
    refine ⟨scanLines_pairwise i s p ls n, fun r hr => ?_⟩
    obtain ⟨h1, h2, _⟩ := scanLines_mem i s p ls n r hr
    exact ⟨h2, h1⟩

theorem spec_C4_witness :
    sampleFs.enumerate "root" = some ["a.txt", "b.txt"] ∧
    searchDirectoryForString "foo" "root" ((2 : Nat) : Int) sampleFs =
      .ok (⟨((List.range 2).map
              (fun i => (searchFilesForString i "foo"
                (partitionSlice ["a.txt", "b.txt"] 2 i) sampleFs).1)).flatten,
            2⟩,
           ((List.range 2).map
              (fun i => (searchFilesForString i "foo"
                (partitionSlice ["a.txt", "b.txt"] 2 i) sampleFs).2)).flatten) :=
  ⟨rfl, (spec_C4 "foo" "root" sampleFs 2 ["a.txt", "b.txt"] rfl).1⟩

/-- C5: an unreadable file in a partition is reported on stderr and
skipped — the record list is exactly the one obtained without that
file, so matches from the remaining readable files still appear — and
no per-file failure ever surfaces as an overall-operation failure:
whenever enumeration succeeds the coordinator returns `ok`, whatever
`content` does. -/
theorem spec_C5 (tid : Nat) (s : String) (fsys : Filesystem)
    (pre post : List String) (p : String) (hp : fsys.content p = none) :
    (searchFilesForString tid s (pre ++ p :: post) fsys).1 =
      (searchFilesForString tid s (pre ++ post) fsys).1 ∧
    Effect.writeStderr (openFailMsg p) ∈
      (searchFilesForString tid s (pre ++ p :: post) fsys).2 ∧
    (∀ (d : String) (tc : Int) (efiles : List String),
      fsys.enumerate d = some efiles →
      ∃ r, searchDirectoryForString s d tc fsys = .ok r) := by
  refine ⟨?_, ?_, ?_⟩
  · have h1 : ((pre ++ p :: post).map (fun q =>
        scanLines tid s q ((fsys.content q).getD []) 0)).flatten =
        ((pre ++ post).map (fun q =>
          scanLines tid s q ((fsys.content q).getD []) 0)).flatten := by
      simp [List.map_append, List.flatten_append, hp, scanLines]
    rw [searchFiles_fst_scanLines, searchFiles_fst_scanLines, h1]
  · rw [searchFiles_snd, scanFiles_snd]
    refine List.mem_flatten.mpr
      ⟨[Effect.openRead p, Effect.writeStderr (openFailMsg p)], ?_, by simp⟩
    refine List.mem_map.mpr ⟨p, by simp, ?_⟩
    rw [hp]
  · intro d tc efiles h
    exact ⟨_, searchDirectory_ok s d tc fsys efiles h⟩

theorem spec_C5_witness :
    faultFs.content "bad.txt" = none ∧
    Effect.writeStderr (openFailMsg "bad.txt") ∈
      (searchFilesForString 0 "x" ([] ++ "bad.txt" :: ["good.txt"]) faultFs).2 :=
  ⟨rfl, (spec_C5 0 "x" faultFs [] ["good.txt"] "bad.txt" rfl).2.1⟩

/-- C6: a partition producing zero real records (an empty partition
included) yields exactly the one placeholder record, carrying the
worker's identity, the empty path and the sentinel line number 0 —
distinguishable from every real record, whose line number is at
least 1. -/
theorem spec_C6 (tid : Nat) (s : String) (fsys : Filesystem) (files : List String)
    (h : (scanFiles tid s fsys files).1 = []) :
    (searchFilesForString tid s files fsys).1 = [MatchRecord.mk tid "" 0 ""] ∧
    (∀ (tid2 : Nat) (s2 p : String) (ls : List String) (r : MatchRecord),
      r ∈ scanLines tid2 s2 p ls 0 → 1 ≤ r.lineNumber) := by
  constructor
  · simp [searchFilesForString, h]
  · intro tid2 s2 p ls r hr
    have := (scanLines_mem tid2 s2 p ls 0 r hr).2.2
    omega

theorem spec_C6_witness :
    (scanFiles 9 "zzz" sampleFs ["a.txt"]).1 = [] ∧
    (searchFilesForString 9 "zzz" ["a.txt"] sampleFs).1 = [MatchRecord.mk 9 "" 0 ""] :=
  ⟨rfl, (spec_C6 9 "zzz" sampleFs ["a.txt"] rfl).1⟩

/-- C7 is false as stated: the core DOES print.  On a root whose first
file cannot be opened, the scan's effect trace contains a stderr write
(the line scanner's `std::cerr <<` at the open-failure branch), so
"the core never prints" fails at this concrete input. -/
theorem spec_C7_counterexample :
    searchDirectoryForString "x" "root" 1 faultFs =
      .ok (⟨[MatchRecord.mk 0 "good.txt" 1 "x marks"], 2⟩,
           [Effect.openRead "bad.txt",
            Effect.writeStderr (openFailMsg "bad.txt"),
            Effect.openRead "good.txt"]) := by
  rfl

/-- C7 as amended: the core never writes to disk and never writes to
stdout; besides opening candidate files for reading, its only other
I/O is one stderr error line for each file whose open failed. -/
theorem spec_C7 (s d : String) (tc : Int) (fsys : Filesystem)
    (res : ScanResult) (effs : List Effect)
    (h : searchDirectoryForString s d tc fsys = .ok (res, effs)) :
    (∀ e ∈ effs,
      (∃ p, e = Effect.openRead p) ∨
      (∃ p, fsys.content p = none ∧ e = Effect.writeStderr (openFailMsg p))) ∧
    (∀ f c, Effect.writeFile f c ∉ effs) ∧
    (∀ o, Effect.writeStdout o ∉ effs) := by
  have hs := searchDirectory_effect_shape s d tc fsys res effs h
  refine ⟨hs, ?_, ?_⟩
  · intro f c hmem
    rcases hs _ hmem with ⟨p, he⟩ | ⟨p, _, he⟩ <;> simp at he
  · intro o hmem
    rcases hs _ hmem with ⟨p, he⟩ | ⟨p, _, he⟩ <;> simp at he

theorem spec_C7_witness :
    (∃ p, Effect.openRead "bad.txt" = Effect.openRead p) ∨
    (∃ p, faultFs.content p = none ∧
      Effect.openRead "bad.txt" = Effect.writeStderr (openFailMsg p)) :=
  (spec_C7 "x" "root" 1 faultFs
    ⟨[MatchRecord.mk 0 "good.txt" 1 "x marks"], 2⟩
    [Effect.openRead "bad.txt",
     Effect.writeStderr (openFailMsg "bad.txt"),
     Effect.openRead "good.txt"] rfl).1 (Effect.openRead "bad.txt") (by simp)

/-- C8: when enumeration of the root fails (missing or non-directory
root, the thrown filesystem error), the coordinator fails with
`directoryNotFound` before any partitioning or worker activity, for
every search string and worker count, producing no partial result. -/
theorem spec_C8 (s d : String) (tc : Int) (fsys : Filesystem)
    (h : fsys.enumerate d = none) :
    searchDirectoryForString s d tc fsys = .error .directoryNotFound := by
  unfold searchDirectoryForString
  rw [h]

theorem spec_C8_witness :
    sampleFs.enumerate "missing" = none ∧
    searchDirectoryForString "foo" "missing" 4 sampleFs = .error .directoryNotFound :=
  ⟨rfl, spec_C8 "foo" "missing" 4 sampleFs rfl⟩

/-- C9: with the empty search string (outside the spec's non-empty
precondition) every line of every readable file of the partition is
emitted as a record, because `std::string::find("")` returns 0 on
every line. -/
theorem spec_C9 (tid : Nat) (fsys : Filesystem) (files : List String)
    (p : String) (ls : List String) (i : Nat)
    (hp : p ∈ files) (hc : fsys.content p = some ls) (hi : i < ls.length) :
    MatchRecord.mk tid p (i + 1) (ls.getD i "") ∈
      (searchFilesForString tid "" files fsys).1 := by
  have hmem : MatchRecord.mk tid p (i + 1) (ls.getD i "") ∈
      scanLines tid "" p ls 0 := by
    have harith : i + 1 = 0 + 1 + i := by omega
    rw [harith]
    exact scanLines_empty_needle_mem tid p ls 0 i hi
  have hmem2 : MatchRecord.mk tid p (i + 1) (ls.getD i "") ∈
      (scanFiles tid "" fsys files).1 := by
    rw [scanFiles_fst]
    refine List.mem_flatten.mpr
      ⟨scanLines tid "" p ((fsys.content p).getD []) 0, ?_, ?_⟩
    · exact List.mem_map.mpr ⟨p, hp, rfl⟩
    · rw [hc]
      exact hmem
  simp only [searchFilesForString]
  have hne : ¬ (scanFiles tid "" fsys files).1.isEmpty = true := by
    cases hzz : (scanFiles tid "" fsys files).1 with
    | nil => rw [hzz] at hmem2; simp at hmem2
    | cons a l => simp
  rw [if_neg hne]
  exact hmem2

theorem spec_C9_witness :
    MatchRecord.mk 3 "a.txt" (1 + 1) (["foo", "bar baz"].getD 1 "") ∈
      (searchFilesForString 3 "" ["a.txt", "b.txt"] sampleFs).1 :=
  spec_C9 3 sampleFs ["a.txt", "b.txt"] "a.txt" ["foo", "bar baz"] 1
    (by simp) rfl (by simp)

/-- C10: on every invocation whose argument parsing and scan both
succeed, `main` returns exit status 0 and its whole effect trace is
the scan's one — the `ScanResult` is discarded, no file (in
particular neither the `-r` result file nor the `-l` log file, both
parsed and validated into the options state) is ever created or
written, and nothing is printed to stdout. -/
theorem spec_C10 (args : List String) (fsys : Filesystem) (sstr : String)
    (st : CliState) (r : ScanResult) (effs : List Effect)
    (hparse : mainParse args fsys = .ok (sstr, st))
    (hscan : searchDirectoryForString sstr st.directoryPath st.threadCnt fsys
      = .ok (r, effs)) :
    mainRun args fsys = some (0, effs) ∧
    (∀ f c, Effect.writeFile f c ∉ effs) ∧
    (∀ o, Effect.writeStdout o ∉ effs) := by
  refine ⟨?_, ?_, ?_⟩
  · unfold mainRun
    rw [hparse]
    dsimp only
    rw [hscan]
  · intro f c hmem
    rcases searchDirectory_effect_shape _ _ _ _ _ _ hscan _ hmem with ⟨p, he⟩ | ⟨p, _, he⟩ <;>
      simp at he
  · intro o hmem
    rcases searchDirectory_effect_shape _ _ _ _ _ _ hscan _ hmem with ⟨p, he⟩ | ⟨p, _, he⟩ <;>
      simp at he

theorem spec_C10_witness :
    mainRun ["sg", "foo"] sampleFs =
      some (0, [Effect.openRead "a.txt", Effect.openRead "b.txt"]) :=
  (spec_C10 ["sg", "foo"] sampleFs "foo"
    ⟨"root", "sg", "sg", 4, false, false, false, false⟩
    ⟨[MatchRecord.mk 0 "" 0 "", MatchRecord.mk 1 "" 0 "", MatchRecord.mk 2 "" 0 "",
      MatchRecord.mk 3 "a.txt" 1 "foo", MatchRecord.mk 3 "b.txt" 2 "foo again"], 2⟩
    [Effect.openRead "a.txt", Effect.openRead "b.txt"] rfl rfl).1

end SpecificGrep
